import Mathlib

/-!
Shallow embedding of `src/src/LCM/utils/PeridigmManager.cpp` (the LCM
Peridigm coupling manager of the Albany repository), together with theorems
settling the claims about it.  Machine doubles are modelled as `ℚ`, C++
`int` as `ℤ`, and the fatal `TEUCHOS_TEST_FOR_EXCEPT_MSG` aborts as the
`Except.error` branch of `Except PeridigmError`.
-/

namespace PeridigmManager

/-- The fatal-error taxonomy of the manager (spec section 7): each value
stands for one family of `TEUCHOS_TEST_FOR_EXCEPT_MSG` diagnostics. -/
inductive PeridigmError where
  | parseError
  | invalidDiscretization
  | invalidTopology
  | invalidId
  | degenerateElement
  | configurationError
deriving DecidableEq, Repr

/-- A 3-vector of (rational-modelled) doubles, one `(x, y, z)` coordinate
triple of the flat `std::vector<double>` arrays in the C++ code. -/
structure Vec3 where
  x : ℚ
  y : ℚ
  z : ℚ
deriving DecidableEq, Repr

instance : Add Vec3 := ⟨fun a b => ⟨a.x + b.x, a.y + b.y, a.z + b.z⟩⟩

instance : Sub Vec3 := ⟨fun a b => ⟨a.x - b.x, a.y - b.y, a.z - b.z⟩⟩

instance : Zero Vec3 := ⟨⟨0, 0, 0⟩⟩

/-- Componentwise division by a scalar time step, as in
`(peridigmCurrentPositions[...] - previousSolutionPositions[...])/timeStep`. -/
instance : HDiv Vec3 ℚ Vec3 := ⟨fun a t => ⟨a.x / t, a.y / t, a.z / t⟩⟩

/-! ### Block-name parsing (initialize, lines 93-101)

`size_t loc = blockName.find_last_of('_');` followed by a fatal ParseError
when `loc == string::npos`, else `stringstream(blockName.substr(loc+1)) >> bId`.
-/

/-- The characters after the last `'_'` of the list, or `none` when no
underscore occurs: `blockName.substr(loc+1)` with `loc = find_last_of('_')`. -/
def afterLastUnderscore : List Char → Option (List Char)
  | [] => none
  | c :: rest =>
    match afterLastUnderscore rest with
    | some s => some s
    | none => if c = '_' then some rest else none

/-- Value of the leading decimal digits of the list, `0` when there are
none (C++11 `operator>>` stores `0` into the target on extraction failure). -/
def readLeadingNat (cs : List Char) : ℕ :=
  (cs.takeWhile Char.isDigit).foldl (fun a c => 10 * a + (c.toNat - 48)) 0

/-- `stringstream >> int` applied to the suffix: an optional sign followed
by decimal digits; digit-less input yields `0` (C++11 zero-on-failure). -/
def readIntStream (cs : List Char) : ℤ :=
  match cs with
  | '-' :: rest => -(readLeadingNat rest : ℤ)
  | '+' :: rest => (readLeadingNat rest : ℤ)
  | _ => (readLeadingNat cs : ℤ)

/-- Block-id determination of `initialize` (lines 93-101): fatal ParseError
when the block name has no underscore, else the integer parsed from the
substring after the last underscore. -/
def parseBlockId (blockName : String) : Except PeridigmError ℤ :=
  match afterLastUnderscore blockName.data with
  | none => .error .parseError
  | some suffix => .ok (readIntStream suffix)

/-! ### Reserved lower bound for partial-stress ids (initialize, lines 165-172) -/

/-- Per-rank bound (lines 166-168): start from `maxAlbanyElementId + 1` and
replace it by `maxAlbanyNodeId + 1` only when `maxAlbanyNodeId` is strictly
greater than the current value of the bound. -/
def localLowestPossiblePartialStressId (maxAlbanyElementId maxAlbanyNodeId : ℤ) : ℤ :=
  let l := maxAlbanyElementId + 1
  if maxAlbanyNodeId > l then maxAlbanyNodeId + 1 else l

/-- `Teuchos::reduceAll(REDUCE_MAX)` over the participating ranks' values
(one value per rank, at least one rank). -/
def mpiReduceMax (vals : List ℤ) : ℤ :=
  match vals with
  | [] => 0
  | v :: rest => rest.foldl max v

/-- The reduced bound every rank ends up with (lines 169-172): the global
maximum of the per-rank bounds. -/
def reducedLowestPossiblePartialStressId (rankMaxima : List (ℤ × ℤ)) : ℤ :=
  mpiReduceMax (rankMaxima.map fun r => localLowestPossiblePartialStressId r.1 r.2)

/-! ### Rank-ordered partial-stress id allocation (initialize, lines 176-196) -/

/-- One iteration of the offset loop (lines 179-182): each rank contributes
`0` to the MAX-reduce except rank `iProc`, which contributes its local
`numPartialStressIds`, so the reduced value every rank sees is rank `iProc`'s
count. -/
def broadcastCount (counts : List ℕ) (iProc : ℕ) : ℤ :=
  mpiReduceMax ((List.range counts.length).map fun r => if r = iProc then (counts.getD r 0 : ℤ) else 0)

/-- The offset loop as seen by rank `pid` (lines 176-187): starting from the
reduced `lowestPossiblePartialStressId`, add the broadcast count of every
rank `iProc` with `pid > iProc`. -/
def minPeridigmPartialStressId (base : ℤ) (counts : List ℕ) (pid : ℕ) : ℤ :=
  (List.range counts.length).foldl
    (fun acc iProc => if pid > iProc then acc + broadcastCount counts iProc else acc) base

/-- The partial-stress global ids emitted by rank `pid` (lines 190-196):
`minPeridigmPartialStressId + i` for `i = 0, ..., numPartialStressIds - 1`. -/
def rankPartialStressIds (base : ℤ) (counts : List ℕ) (pid : ℕ) : List ℤ :=
  (List.range (counts.getD pid 0)).map
    fun (i : ℕ) => minPeridigmPartialStressId base counts pid + (i : ℤ)

/-! ### Coupling-manager state and field synchronization
(setCurrentTimeAndDisplacement, lines 535-653; updateState, lines 655-664;
evaluateInternalForce, lines 672-676; getForce, lines 678-689) -/

/-- One peridynamic sphere point of the solver state: its mesh global node
id (entry of `sphereElementGlobalNodeIds`) together with its slices of the
solver's reference-position `getX`, current-position `getY`, displacement
`getU` and velocity `getV` vectors and of `previousSolutionPositions`. -/
structure SpherePoint where
  globalId : ℤ
  refPos : Vec3
  curPos : Vec3
  disp : Vec3
  vel : Vec3
  prevSolPos : Vec3
deriving DecidableEq, Repr

/-- The mutable state of the manager that the synchronization calls touch:
the `hasPeridynamics` flag, the time bookkeeping, and the sphere points. -/
structure ManagerState where
  hasPeridynamics : Bool
  previousTime : ℚ
  currentTime : ℚ
  timeStep : ℚ
  spherePoints : List SpherePoint
deriving DecidableEq, Repr

/-- The per-point body of the sphere loop (lines 559-574): overwrite the
displacement with the mesh displacement, set current position = reference
position + displacement, and velocity = (current position −
previousSolutionPosition)/timeStep. -/
def updateSpherePoint (dt : ℚ) (meshDisp : ℤ → Vec3) (p : SpherePoint) : SpherePoint :=
  let u := meshDisp p.globalId
  let y := p.refPos + u
  { p with disp := u, curPos := y, vel := (y - p.prevSolPos) / dt }

/-- `setCurrentTimeAndDisplacement` (lines 535-653, sphere-element part):
a no-op without peridynamics; otherwise set `currentTime`, compute
`timeStep = currentTime - previousTime` substituting `1.0` for a
non-positive difference, and run the sphere-point loop.  `meshDisp` is the
Albany solution vector read by global node id. -/
def setCurrentTimeAndDisplacement (time : ℚ) (meshDisp : ℤ → Vec3)
    (s : ManagerState) : ManagerState :=
  if s.hasPeridynamics then
    let dtRaw := time - s.previousTime
    let dt := if dtRaw ≤ 0 then 1 else dtRaw
    { s with
      currentTime := time
      timeStep := dt
      spherePoints := s.spherePoints.map (updateSpherePoint dt meshDisp) }
  else s

/-- `updateState` (lines 655-664): a no-op without peridynamics; otherwise
commit `previousTime = currentTime` and copy the current positions into
`previousSolutionPositions` (the solver's own `updateState` advances state
outside this model). -/
def updateState (s : ManagerState) : ManagerState :=
  if s.hasPeridynamics then
    { s with
      previousTime := s.currentTime
      spherePoints := s.spherePoints.map fun p => { p with prevSolPos := p.curPos } }
  else s

/-- `evaluateInternalForce` (lines 672-676): delegates to the opaque
peridynamic solver (`solverStep`) only when peridynamics is present. -/
def evaluateInternalForce (solverStep : ManagerState → ManagerState)
    (s : ManagerState) : ManagerState :=
  if s.hasPeridynamics then solverStep s else s

/-- `Epetra_BlockMap::LID`: the local index of a global id in the map's
id list, `-1` when the id is absent. -/
def epetraLID (ids : List ℤ) (gid : ℤ) : ℤ :=
  match ids.findIdx? (fun id => id = gid) with
  | none => -1
  | some lid => (lid : ℤ)

/-- `getForce` (lines 678-689): `0.0` without peridynamics; otherwise a
fatal InvalidId when the global id is not in the force vector's map, else
the entry `peridigmForce[3*peridigmLocalId + dof]` of the flat force
vector. -/
def getForce (hasPeridynamics : Bool) (forceIds : List ℤ) (force : ℕ → ℚ)
    (globalAlbanyNodeId : ℤ) (dof : ℕ) : Except PeridigmError ℚ :=
  if hasPeridynamics then
    match forceIds.findIdx? (fun id => id = globalAlbanyNodeId) with
    | none => .error .invalidId
    | some lid => .ok (force (3 * lid + dof))
  else .ok 0

/-- The single-sphere scenario state: one sphere element whose node has
global id 5, reference position (1,0,0), previous solution position equal to
the initial position, with `previousTime = 0`. -/
def singleSphereScenario : ManagerState :=
  { hasPeridynamics := true
    previousTime := 0
    currentTime := 0
    timeStep := 0
    spherePoints := [{ globalId := 5, refPos := ⟨1, 0, 0⟩, curPos := ⟨1, 0, 0⟩,
                       disp := 0, vel := 0, prevSolPos := ⟨1, 0, 0⟩ }] }

/-- Current physical positions of a partial-stress element's quadrature
points (lines 623-636): node coordinates = `albanyNodeInitialPositions` +
current mesh displacement, pushed through `mapToPhysicalFrame`.  The
isoparametric map is Intrepid code external to this repository, so it is
abstracted as an arbitrary function `physMap` of the node-coordinate
workset; at initialization (lines 321-358) the very same map applied to the
initial positions produced the reference positions stored in `initialX`. -/
def psCurrentPositions (physMap : List Vec3 → List Vec3)
    (initNodePos nodeDisp : List Vec3) : List Vec3 :=
  physMap (List.zipWith (fun a b => a + b) initNodePos nodeDisp)

/-- Per-quadrature-point update of a partial-stress element (lines 638-650):
current position as mapped, displacement = current − reference, velocity =
(current − previousSolutionPosition)/timeStep. -/
def psPointUpdate (dt : ℚ) (cur ref prev : Vec3) : Vec3 × Vec3 × Vec3 :=
  (cur, cur - ref, (cur - prev) / dt)

/-- The whole quadrature-point loop of a partial-stress element during
`setCurrentTimeAndDisplacement`: pair each current position with its
reference position and previous solution position. -/
def updatePartialStressElement (dt : ℚ) (physMap : List Vec3 → List Vec3)
    (initNodePos nodeDisp refPos prevPos : List Vec3) : List (Vec3 × Vec3 × Vec3) :=
  List.zipWith (fun cur rp => psPointUpdate dt cur rp.1 rp.2)
    (psCurrentPositions physMap initNodePos nodeDisp) (refPos.zip prevPos)

/-- `std::map<int,int>::operator[]` as used to read
`peridigmGlobalIdToPeridigmLocalId` (initialize line 254 and
setCurrentTimeAndDisplacement line 639): an absent key's entry is
value-initialized to `0` and that value returned. -/
def stdMapBracket (m : List (ℤ × ℤ)) (k : ℤ) : ℤ :=
  match m.find? (fun e => e.1 = k) with
  | none => 0
  | some e => e.2

/-- The id map built by `initialize` (lines 124-127 and 190-196): the n-th
registered global id receives local id n
(`localId = peridigmNodeGlobalIds.size()` at insertion time, starting from
`firstLocal`). -/
def buildIdMap (gids : List ℤ) (firstLocal : ℕ) : List (ℤ × ℤ) :=
  match gids with
  | [] => []
  | g :: rest => (g, (firstLocal : ℤ)) :: buildIdMap rest (firstLocal + 1)

/-- The guarded lookup pattern of lines 253-255 and 638-640:
`localId = map[globalId]` followed by a fatal InvalidId abort when
`localId == -1`. -/
def lookupPeridigmLocalId (m : List (ℤ × ℤ)) (gid : ℤ) : Except PeridigmError ℤ :=
  let localId := stdMapBracket m gid
  if localId = -1 then .error .invalidId else .ok localId

/-- Modelled from the spec: the weighted integration measure of each
quadrature point is `|det(Jacobian)| × cubature_weight` (spec section 4.3).
The computation is performed by `Intrepid::FunctionSpaceTools::
computeCellMeasure` on the Jacobian determinants produced by
`Intrepid::CellTools::setJacobianDet` (lines 335-337); Intrepid is Trilinos
code external to this repository, so the formula is taken from the spec. -/
def computeCellMeasure (jacobianDets cubatureWeights : List ℚ) : List ℚ :=
  List.zipWith (fun d w => |d| * w) jacobianDets cubatureWeights

/-- The volume computation of `initialize` for one partial-stress element
(lines 334-357): the weighted measures are stored into `cellVolume`
unconditionally — the code performs no check on the Jacobian determinants,
so this path has no error branch at all. -/
def partialStressCellVolumes (jacobianDets cubatureWeights : List ℚ) :
    Except PeridigmError (List ℚ) :=
  .ok (computeCellMeasure jacobianDets cubatureWeights)

/-! ### Output-field catalog (setOutputFields, lines 720-757) -/

/-- The names accepted as scalar element variables (line 735). -/
def scalarElementVariableNames : List String :=
  ["Dilatation", "Weighted_Volume", "Radius", "Number_Of_Neighbors", "Horizon", "Volume"]

/-- The names accepted as three-component nodal variables (line 740). -/
def vectorNodeVariableNames : List String :=
  ["Model_Coordinates", "Coordinates", "Displacement", "Velocity", "Force"]

/-- The names accepted as nine-component element variables (line 745). -/
def tensorElementVariableNames : List String :=
  ["Deformation_Gradient", "Unrotated_Rate_Of_Deformation", "Cauchy_Stress", "Partial_Stress"]

/-- The `OutputField` record of the manager. -/
structure OutputField where
  albanyName : String
  peridigmName : String
  relation : String
  initType : String
  length : ℤ
deriving DecidableEq, Repr

/-- The body of the `setOutputFields` loop for one requested name (lines
731-752): prefix the name with "Peridigm_" for the Albany side, look it up
in the hard-coded catalog, and abort with a fatal ConfigurationError for
any unknown name. -/
def buildOutputField (name : String) : Except PeridigmError OutputField :=
  if name ∈ scalarElementVariableNames then
    .ok { albanyName := "Peridigm_" ++ name, peridigmName := name,
          relation := "element", initType := "scalar", length := 1 }
  else if name ∈ vectorNodeVariableNames then
    .ok { albanyName := "Peridigm_" ++ name, peridigmName := name,
          relation := "node", initType := "scalar", length := 3 }
  else if name ∈ tensorElementVariableNames then
    .ok { albanyName := "Peridigm_" ++ name, peridigmName := name,
          relation := "element", initType := "scalar", length := 9 }
  else
    .error .configurationError

/-- The registration step (lines 754-755): append the field unless an equal
field is already registered. -/
def addOutputField (fields : List OutputField) (f : OutputField) : List OutputField :=
  if f ∈ fields then fields else fields ++ [f]

/-- `setOutputFields` over the requested names, threading the registered
field list. -/
def setOutputFields (names : List String) (fields : List OutputField) :
    Except PeridigmError (List OutputField) :=
  match names with
  | [] => .ok fields
  | n :: rest =>
    match buildOutputField n with
    | .error e => .error e
    | .ok f => setOutputFields rest (addOutputField fields f)

/-- Block classification of `initialize` (lines 111-143 together with the
bail-out of lines 214-221): blocks whose material model is exactly
"Peridynamics" or exactly "Peridynamic Partial Stress" are collected, and
`hasPeridynamics` is false — with `initialize` returning before the
peridynamic solver is constructed — exactly when both lists are empty.
Input: each block's name paired with its material-model name. -/
def classifyHasPeridynamics (blocks : List (String × String)) : Bool :=
  let peridynamicsBlocks := blocks.filter fun b => b.2 == "Peridynamics"
  let partialStressBlocks := blocks.filter fun b => b.2 == "Peridynamic Partial Stress"
  if peridynamicsBlocks.length == 0 && partialStressBlocks.length == 0 then false else true

/-- A manager state with `hasPeridynamics = false`, as left behind by the
early returns of `initialize` (lines 24-27 and 214-218). -/
def noPeridynamicsState : ManagerState :=
  { hasPeridynamics := false
    previousTime := 0
    currentTime := 0
    timeStep := 0
    spherePoints := [] }

/-! ### Theorems -/

theorem Vec3.add_def (a b : Vec3) : a + b = ⟨a.x + b.x, a.y + b.y, a.z + b.z⟩ := rfl

theorem Vec3.sub_def (a b : Vec3) : a - b = ⟨a.x - b.x, a.y - b.y, a.z - b.z⟩ := rfl

theorem Vec3.div_def (a : Vec3) (t : ℚ) : a / t = ⟨a.x / t, a.y / t, a.z / t⟩ := rfl

theorem Vec3.zero_def : (0 : Vec3) = ⟨0, 0, 0⟩ := rfl

theorem Vec3.add_zero (v : Vec3) : v + 0 = v := by
  show Vec3.mk (v.x + 0) (v.y + 0) (v.z + 0) = v
  simp

theorem Vec3.sub_self (v : Vec3) : v - v = 0 := by
  show Vec3.mk (v.x - v.x) (v.y - v.y) (v.z - v.z) = Vec3.mk 0 0 0
  simp

theorem Vec3.zero_div (t : ℚ) : (0 : Vec3) / t = 0 := by
  show Vec3.mk ((0 : ℚ) / t) ((0 : ℚ) / t) ((0 : ℚ) / t) = Vec3.mk 0 0 0
  simp

theorem afterLastUnderscore_eq_none_iff (cs : List Char) :
    afterLastUnderscore cs = none ↔ '_' ∉ cs := by
  induction cs with
  | nil => simp [afterLastUnderscore]
  | cons c rest ih =>
    simp only [afterLastUnderscore, List.mem_cons]
    cases h : afterLastUnderscore rest with
    | some s =>
      have hmem : '_' ∈ rest := by
        by_contra hn
        rw [ih.mpr hn] at h
        exact Option.noConfusion h
      simp [hmem]
    | none =>
      by_cases hc : c = '_'
      · simp [hc]
      · simp [hc, ih.mp h]
        exact fun hh => hc (Eq.symm hh)

theorem afterLastUnderscore_append (xs ys : List Char) (h : '_' ∉ ys) :
    afterLastUnderscore (xs ++ '_' :: ys) = some ys := by
  induction xs with
  | nil =>
    show (match afterLastUnderscore ys with
      | some s => some s
      | none => if '_' = '_' then some ys else none) = some ys
    rw [(afterLastUnderscore_eq_none_iff ys).mpr h]
    rfl
  | cons x xs ih =>
    show (match afterLastUnderscore (xs ++ '_' :: ys) with
      | some s => some s
      | none => if x = '_' then some (xs ++ '_' :: ys) else none) = some ys
    rw [ih]

theorem le_foldl_max (b : ℤ) (l : List ℤ) : b ≤ l.foldl max b := by
  induction l generalizing b with
  | nil => exact le_refl b
  | cons a t ih => exact le_trans (le_max_left b a) (ih (max b a))

theorem mem_le_foldl_max (b : ℤ) (l : List ℤ) (x : ℤ) (hx : x ∈ l) : x ≤ l.foldl max b := by
  induction l generalizing b with
  | nil => cases hx
  | cons a t ih =>
    cases List.mem_cons.mp hx with
    | inl h =>
      rw [h]
      exact le_trans (le_max_right b a) (le_foldl_max (max b a) t)
    | inr h => exact ih (max b a) h

theorem foldl_max_le (b c : ℤ) (l : List ℤ) (hb : b ≤ c) (h : ∀ x ∈ l, x ≤ c) :
    l.foldl max b ≤ c := by
  induction l generalizing b with
  | nil => exact hb
  | cons a t ih =>
    exact ih (max b a) (max_le hb (h a (List.mem_cons_self a t)))
      (fun x hx => h x (List.mem_cons_of_mem a hx))

theorem broadcastCount_eq (counts : List ℕ) (iProc : ℕ) (h : iProc < counts.length) :
    broadcastCount counts iProc = (counts.getD iProc 0 : ℤ) := by
  unfold broadcastCount
  set f : ℕ → ℤ := fun r => if r = iProc then (counts.getD r 0 : ℤ) else 0 with hf
  have hmem : (counts.getD iProc 0 : ℤ) ∈ (List.range counts.length).map f := by
    refine List.mem_map.mpr ⟨iProc, List.mem_range.mpr h, ?_⟩
    simp [hf]
  have hle : ∀ x ∈ (List.range counts.length).map f, x ≤ (counts.getD iProc 0 : ℤ) := by
    intro x hx
    rcases List.mem_map.mp hx with ⟨r, _, rfl⟩
    by_cases hr : r = iProc
    · simp [hf, hr]
    · simp only [hf, if_neg hr]
      exact Int.natCast_nonneg _
  cases hl : (List.range counts.length).map f with
  | nil => rw [hl] at hmem; cases hmem
  | cons v rest =>
    rw [hl] at hmem hle
    show rest.foldl max v = _
    refine le_antisymm (foldl_max_le v _ rest (hle v (List.mem_cons_self v rest))
      (fun x hx => hle x (List.mem_cons_of_mem v hx))) ?_
    cases List.mem_cons.mp hmem with
    | inl hh => exact hh ▸ le_foldl_max v rest
    | inr hh => exact mem_le_foldl_max v rest _ hh

theorem take_succ_sum (counts : List ℕ) (n : ℕ) (h : n < counts.length) :
    (counts.take (n + 1)).sum = (counts.take n).sum + counts.getD n 0 := by
  rw [List.take_succ, List.sum_append, List.getElem?_eq_getElem h]
  simp [List.getD_eq_getElem?_getD, List.getElem?_eq_getElem h]

theorem take_sum_le (counts : List ℕ) (a b : ℕ) (h : a ≤ b) :
    (counts.take a).sum ≤ (counts.take b).sum := by
  conv_rhs => rw [← List.take_append_drop a (counts.take b)]
  rw [List.sum_append, List.take_take, min_eq_left h]
  exact Nat.le_add_right _ _

theorem minPeridigmPartialStressId_foldl (base : ℤ) (counts : List ℕ) (pid : ℕ) :
    ∀ n, n ≤ counts.length →
      (List.range n).foldl
        (fun acc iProc => if pid > iProc then acc + broadcastCount counts iProc else acc) base
      = base + (((counts.take (min pid n)).sum : ℕ) : ℤ) := by
  intro n
  induction n with
  | zero => simp
  | succ n ih =>
    intro hn
    have hlt : n < counts.length := hn
    rw [List.range_succ, List.foldl_append, ih (le_of_lt hlt)]
    by_cases hp : pid > n
    · have h1 : min pid n = n := by omega
      have h2 : min pid (n + 1) = n + 1 := by omega
      simp only [List.foldl_cons, List.foldl_nil, if_pos hp, h1, h2,
        broadcastCount_eq counts n hlt, take_succ_sum counts n hlt]
      push_cast
      ring
    · have h1 : min pid (n + 1) = min pid n := by omega
      simp [List.foldl_cons, if_neg hp, h1]

theorem minPeridigmPartialStressId_eq (base : ℤ) (counts : List ℕ) (pid : ℕ)
    (h : pid ≤ counts.length) :
    minPeridigmPartialStressId base counts pid = base + (((counts.take pid).sum : ℕ) : ℤ) := by
  unfold minPeridigmPartialStressId
  rw [minPeridigmPartialStressId_foldl base counts pid counts.length (le_refl _),
    min_eq_left h]

theorem mem_rankPartialStressIds (base : ℤ) (counts : List ℕ) (p : ℕ) (x : ℤ) :
    x ∈ rankPartialStressIds base counts p ↔
      minPeridigmPartialStressId base counts p ≤ x ∧
      x < minPeridigmPartialStressId base counts p + (counts.getD p 0 : ℤ) := by
  unfold rankPartialStressIds
  rw [List.mem_map]
  constructor
  · rintro ⟨i, hi, rfl⟩
    rw [List.mem_range] at hi
    omega
  · rintro ⟨h1, h2⟩
    exact ⟨(x - minPeridigmPartialStressId base counts p).toNat,
      List.mem_range.mpr (by omega), by omega⟩

theorem rankIds_disjoint_of_lt (base : ℤ) (counts : List ℕ) {p q : ℕ} (hpq : p < q)
    (hq : q ≤ counts.length) (x : ℤ) (hp : x ∈ rankPartialStressIds base counts p) :
    x ∉ rankPartialStressIds base counts q := by
  intro hqmem
  rw [mem_rankPartialStressIds] at hp hqmem
  have hplt : p < counts.length := lt_of_lt_of_le hpq hq
  rw [minPeridigmPartialStressId_eq base counts p (le_of_lt hplt)] at hp
  rw [minPeridigmPartialStressId_eq base counts q hq] at hqmem
  have hs : (counts.take (p + 1)).sum ≤ (counts.take q).sum :=
    take_sum_le counts (p + 1) q (by omega)
  have hss : (counts.take (p + 1)).sum = (counts.take p).sum + counts.getD p 0 :=
    take_succ_sum counts p hplt
  omega

/-- C2: for every base (the reduced `lowestPossiblePartialStressId`) and every
assignment of per-rank partial-stress counts, the rank-ordered offset loop of
`initialize` gives rank `p` the offset `base + Σ_{i<p} counts_i`, hence the
contiguous id block `[base + Σ_{i<p} counts_i, base + Σ_{i≤p} counts_i)`; the
id sets of distinct ranks are pairwise disjoint, and a rank with count 0
receives no ids (and, the offsets being exactly the prefix sums, contributes
no offset to any other rank). -/
theorem rankPartialStressIds_spec (base : ℤ) (counts : List ℕ) :
    (∀ p, p ≤ counts.length →
      minPeridigmPartialStressId base counts p = base + (((counts.take p).sum : ℕ) : ℤ)) ∧
    (∀ p x, p ≤ counts.length →
      (x ∈ rankPartialStressIds base counts p ↔
        base + (((counts.take p).sum : ℕ) : ℤ) ≤ x ∧
        x < base + (((counts.take p).sum : ℕ) : ℤ) + (counts.getD p 0 : ℤ))) ∧
    (∀ p q x, p ≠ q → p ≤ counts.length → q ≤ counts.length →
      x ∈ rankPartialStressIds base counts p → x ∉ rankPartialStressIds base counts q) ∧
    (∀ p, counts.getD p 0 = 0 → rankPartialStressIds base counts p = []) := by
  refine ⟨fun p hp => minPeridigmPartialStressId_eq base counts p hp,
    fun p x hp => ?_, fun p q x hpq hp hq hxp => ?_, fun p hc => ?_⟩
  · rw [mem_rankPartialStressIds, minPeridigmPartialStressId_eq base counts p hp]
  · cases lt_or_gt_of_ne hpq with
    | inl h => exact rankIds_disjoint_of_lt base counts h hq x hxp
    | inr h =>
      intro hxq
      exact rankIds_disjoint_of_lt base counts h hp x hxq hxp
  · unfold rankPartialStressIds
    rw [hc]
    rfl

theorem rankPartialStressIds_spec_witness :
    minPeridigmPartialStressId 10 [2, 0, 3] 1
      = 10 + ((((([2, 0, 3] : List ℕ).take 1).sum : ℕ) : ℤ)) ∧
    (10 : ℤ) ∉ rankPartialStressIds 10 [2, 0, 3] 2 ∧
    rankPartialStressIds 10 [2, 0, 3] 1 = [] := by
  refine ⟨(rankPartialStressIds_spec 10 [2, 0, 3]).1 1 (by decide),
    (rankPartialStressIds_spec 10 [2, 0, 3]).2.2.1 0 2 10 (by decide) (by decide) (by decide)
      (by decide),
    (rankPartialStressIds_spec 10 [2, 0, 3]).2.2.2 1 (by decide)⟩

/-- C1 (refuting the claimed strict bound): on a rank whose maximum Albany
node id exceeds the maximum Albany element id by exactly one (element id 0,
node id 1), `initialize` computes `lowestPossiblePartialStressId = 1`, equal
to the maximum node id: the reserved bound is not strictly greater than both
mesh maxima (the code's own comment promises ids "that don't exist in the
Albany discretization", yet the first partial-stress id would be the existing
node id 1). -/
theorem lowestPossiblePartialStressId_collides_with_node_id :
    localLowestPossiblePartialStressId 0 1 = 1 ∧
    reducedLowestPossiblePartialStressId [(0, 1)] = 1 ∧
    ¬ reducedLowestPossiblePartialStressId [(0, 1)] > 1 := by
  decide

/-- C6: for every element-block name, the block id is the integer parsed
from the substring after the last underscore of the name, and a name with no
underscore is a fatal ParseError; in particular "block_7" parses to block
id 7 and "blockA" aborts. -/
theorem parseBlockId_spec :
    (∀ name : String, '_' ∉ name.data → parseBlockId name = .error .parseError) ∧
    (∀ xs ys : List Char, '_' ∉ ys →
      parseBlockId (String.mk (xs ++ '_' :: ys)) = .ok (readIntStream ys)) ∧
    parseBlockId "block_7" = .ok 7 ∧
    parseBlockId "blockA" = .error .parseError := by
  refine ⟨fun name h => ?_, fun xs ys h => ?_, ?_, ?_⟩
  · unfold parseBlockId
    rw [(afterLastUnderscore_eq_none_iff name.data).mpr h]
  · unfold parseBlockId
    rw [show (String.mk (xs ++ '_' :: ys)).data = xs ++ '_' :: ys from rfl,
      afterLastUnderscore_append xs ys h]
  · rfl
  · rfl

theorem parseBlockId_spec_witness :
    parseBlockId "blockA" = .error .parseError ∧
    parseBlockId (String.mk (['b', 'l', 'o', 'c', 'k'] ++ '_' :: ['7']))
      = .ok (readIntStream ['7']) :=
  ⟨parseBlockId_spec.1 "blockA" (by decide),
   parseBlockId_spec.2.1 ['b', 'l', 'o', 'c', 'k'] ['7'] (by decide)⟩

/-- C4: with peridynamics present, `setCurrentTimeAndDisplacement` sets
`timeStep = currentTime - previousTime` with any non-positive difference
replaced by 1.0, and gives every sphere point displacement = mesh
displacement, current position = reference position + displacement, and
velocity = (current position - previousSolutionPosition)/timeStep; in the
single-sphere scenario (node id 5, reference (1,0,0), displacement
(0.1,0,0), time 1.0, previous time 0.0) the current position is (1.1,0,0)
and the velocity (0.1,0,0). -/
theorem setCurrentTimeAndDisplacement_spec :
    (∀ (s : ManagerState) (time : ℚ) (meshDisp : ℤ → Vec3),
      s.hasPeridynamics = true →
      (setCurrentTimeAndDisplacement time meshDisp s).timeStep
        = (if time - s.previousTime ≤ 0 then 1 else time - s.previousTime)) ∧
    (∀ (s : ManagerState) (time : ℚ) (meshDisp : ℤ → Vec3) (q : SpherePoint),
      s.hasPeridynamics = true →
      q ∈ (setCurrentTimeAndDisplacement time meshDisp s).spherePoints →
      q.disp = meshDisp q.globalId ∧
      q.curPos = q.refPos + q.disp ∧
      q.vel = (q.curPos - q.prevSolPos)
        / (setCurrentTimeAndDisplacement time meshDisp s).timeStep) ∧
    (setCurrentTimeAndDisplacement 1 (fun _ => ⟨1/10, 0, 0⟩)
        singleSphereScenario).spherePoints
      = [{ globalId := 5, refPos := ⟨1, 0, 0⟩, curPos := ⟨11/10, 0, 0⟩,
           disp := ⟨1/10, 0, 0⟩, vel := ⟨1/10, 0, 0⟩, prevSolPos := ⟨1, 0, 0⟩ }] ∧
    (setCurrentTimeAndDisplacement 1 (fun _ => ⟨1/10, 0, 0⟩)
        singleSphereScenario).timeStep = 1 := by
  refine ⟨fun s time meshDisp h => ?_, fun s time meshDisp q h hq => ?_, ?_, ?_⟩
  · simp [setCurrentTimeAndDisplacement, h]
  · simp only [setCurrentTimeAndDisplacement, h, if_true] at hq ⊢
    rcases List.mem_map.mp hq with ⟨p, _, rfl⟩
    refine ⟨rfl, rfl, rfl⟩
  · simp only [setCurrentTimeAndDisplacement, singleSphereScenario, updateSpherePoint,
      Vec3.add_def, Vec3.sub_def, Vec3.div_def, Vec3.zero_def, List.map_cons, List.map_nil]
    norm_num
  · simp only [setCurrentTimeAndDisplacement, singleSphereScenario]
    norm_num

theorem setCurrentTimeAndDisplacement_spec_witness :
    (setCurrentTimeAndDisplacement 1 (fun _ => ⟨1/10, 0, 0⟩) singleSphereScenario).timeStep
      = (if (1 : ℚ) - singleSphereScenario.previousTime ≤ 0 then 1
         else 1 - singleSphereScenario.previousTime) ∧
    (let q0 : SpherePoint :=
      { globalId := 5, refPos := ⟨1, 0, 0⟩, curPos := ⟨11/10, 0, 0⟩,
        disp := ⟨1/10, 0, 0⟩, vel := ⟨1/10, 0, 0⟩, prevSolPos := ⟨1, 0, 0⟩ }
     q0.disp = (fun _ : ℤ => (⟨1/10, 0, 0⟩ : Vec3)) q0.globalId ∧
     q0.curPos = q0.refPos + q0.disp ∧
     q0.vel = (q0.curPos - q0.prevSolPos)
       / (setCurrentTimeAndDisplacement 1 (fun _ => ⟨1/10, 0, 0⟩)
           singleSphereScenario).timeStep) := by
  refine ⟨setCurrentTimeAndDisplacement_spec.1 singleSphereScenario 1
    (fun _ => ⟨1/10, 0, 0⟩) rfl, ?_⟩
  exact setCurrentTimeAndDisplacement_spec.2.1 singleSphereScenario 1
    (fun _ => ⟨1/10, 0, 0⟩) _ rfl
    (by rw [setCurrentTimeAndDisplacement_spec.2.2.1]
        exact List.mem_singleton.mpr rfl)

theorem zipWith_add_replicate_zero (l : List Vec3) :
    List.zipWith (fun a b => a + b) l (List.replicate l.length 0) = l := by
  induction l with
  | nil => rfl
  | cons a t ih =>
    simp only [List.length_cons, List.replicate_succ, List.zipWith_cons_cons,
      Vec3.add_zero, ih]

theorem zipWith_zip_self (f : Vec3 → Vec3 × Vec3 → Vec3 × Vec3 × Vec3) (l : List Vec3) :
    List.zipWith f l (l.zip l) = l.map (fun a => f a (a, a)) := by
  induction l with
  | nil => rfl
  | cons a t ih => simp only [List.zip_cons_cons, List.zipWith_cons_cons, List.map_cons, ih]

/-- C8: with an all-zero mesh displacement and previousSolutionPositions
still equal to the initial positions, and currentTime > previousTime (so the
timeStep substitution does not apply), every sphere point ends with current
position equal to its reference position and zero velocity, and every
partial-stress quadrature point ends with current position equal to the
reference position stored at initialization, zero displacement and zero
velocity. -/
theorem zeroDisplacementRoundTrip :
    (∀ (s : ManagerState) (time : ℚ) (meshDisp : ℤ → Vec3),
      s.hasPeridynamics = true → s.previousTime < time →
      (∀ p ∈ s.spherePoints, meshDisp p.globalId = 0 ∧ p.prevSolPos = p.refPos) →
      ∀ q ∈ (setCurrentTimeAndDisplacement time meshDisp s).spherePoints,
        q.curPos = q.refPos ∧ q.vel = 0) ∧
    (∀ (dt : ℚ) (physMap : List Vec3 → List Vec3) (initNodePos : List Vec3),
      0 < dt →
      updatePartialStressElement dt physMap initNodePos
          (List.replicate initNodePos.length 0)
          (physMap initNodePos) (physMap initNodePos)
        = (physMap initNodePos).map (fun a => (a, 0, 0))) := by
  constructor
  · intro s time meshDisp h _ hzero q hq
    simp only [setCurrentTimeAndDisplacement, h, if_true] at hq
    rcases List.mem_map.mp hq with ⟨p, hp, rfl⟩
    rcases hzero p hp with ⟨hd0, hps⟩
    constructor
    · show p.refPos + meshDisp p.globalId = p.refPos
      rw [hd0, Vec3.add_zero]
    · show (p.refPos + meshDisp p.globalId - p.prevSolPos) / _ = 0
      rw [hd0, Vec3.add_zero, hps, Vec3.sub_self, Vec3.zero_div]
  · intro dt physMap initNodePos _
    unfold updatePartialStressElement psCurrentPositions
    rw [zipWith_add_replicate_zero, zipWith_zip_self]
    refine List.map_congr_left (fun a _ => ?_)
    unfold psPointUpdate
    rw [Vec3.sub_self, Vec3.zero_div]

theorem zeroDisplacementRoundTrip_witness :
    (let q0 : SpherePoint :=
      { globalId := 5, refPos := ⟨1, 0, 0⟩, curPos := ⟨1, 0, 0⟩, disp := 0, vel := 0,
        prevSolPos := ⟨1, 0, 0⟩ }
     q0.curPos = q0.refPos ∧ q0.vel = 0) ∧
    updatePartialStressElement 1 (fun l => l) [⟨1, 2, 3⟩]
        (List.replicate ([(⟨1, 2, 3⟩ : Vec3)] : List Vec3).length 0)
        [⟨1, 2, 3⟩] [⟨1, 2, 3⟩]
      = [(⟨1, 2, 3⟩, 0, 0)] := by
  refine ⟨?_, zeroDisplacementRoundTrip.2 1 (fun l => l) [⟨1, 2, 3⟩] (by norm_num)⟩
  refine zeroDisplacementRoundTrip.1 singleSphereScenario 1 (fun _ => 0) rfl
    (by norm_num [singleSphereScenario])
    (fun p hp => by
      rcases List.mem_singleton.mp hp with rfl
      exact ⟨rfl, rfl⟩) _ ?_
  simp only [setCurrentTimeAndDisplacement, singleSphereScenario, updateSpherePoint,
    Vec3.add_def, Vec3.sub_def, Vec3.div_def, Vec3.zero_def, List.map_cons, List.map_nil]
  norm_num

/-- C5: with peridynamics present, `getForce` on a global id that is not in
the force vector's map is the fatal InvalidId abort — never a silent 0.0 —
while a registered id yields entry `3*localId + dof` of the flat force
vector; without peridynamics every call returns 0.0. -/
theorem getForce_spec :
    (∀ (forceIds : List ℤ) (force : ℕ → ℚ) (gid : ℤ) (dof : ℕ),
      gid ∉ forceIds →
      getForce true forceIds force gid dof = .error .invalidId ∧
      ∀ v : ℚ, getForce true forceIds force gid dof ≠ .ok v) ∧
    (∀ (forceIds : List ℤ) (gid : ℤ), gid ∈ forceIds →
      ∃ lid : ℕ, forceIds.findIdx? (fun id => id = gid) = some lid ∧
        ∀ (force : ℕ → ℚ) (dof : ℕ),
          getForce true forceIds force gid dof = .ok (force (3 * lid + dof))) ∧
    (∀ (forceIds : List ℤ) (force : ℕ → ℚ) (gid : ℤ) (dof : ℕ),
      getForce false forceIds force gid dof = .ok 0) := by
  refine ⟨fun forceIds force gid dof h => ?_, fun forceIds gid h => ?_,
    fun forceIds force gid dof => rfl⟩
  · have hn : forceIds.findIdx? (fun id => id = gid) = none := by
      rw [List.findIdx?_eq_none_iff]
      intro x hx
      simp only [decide_eq_false_iff_not]
      intro he
      exact absurd (he ▸ hx) h
    unfold getForce
    rw [hn]
    exact ⟨rfl, fun v => by simp⟩
  · have hs : (forceIds.findIdx? (fun id => id = gid)).isSome = true := by
      rw [List.findIdx?_isSome]
      exact List.any_eq_true.mpr ⟨gid, h, by simp⟩
    rcases Option.isSome_iff_exists.mp hs with ⟨lid, hlid⟩
    refine ⟨lid, hlid, fun force dof => ?_⟩
    unfold getForce
    rw [hlid]
    rfl

theorem getForce_spec_witness :
    getForce true [4, 9] (fun i => (i : ℚ)) 7 1 = .error .invalidId ∧
    getForce true [4, 9] (fun i => (i : ℚ)) 7 1 ≠ .ok 0 ∧
    getForce false [4, 9] (fun i => (i : ℚ)) 7 1 = .ok 0 ∧
    getForce true [4, 9] (fun i => (i : ℚ)) 9 0 = .ok 3 := by
  obtain ⟨lid, hl, he⟩ := getForce_spec.2.1 [4, 9] 9 (by decide)
  have h1 : ([4, 9] : List ℤ).findIdx? (fun id => id = 9) = some 1 := rfl
  rw [h1] at hl
  injection hl with h2
  refine ⟨(getForce_spec.1 [4, 9] (fun i => (i : ℚ)) 7 1 (by decide)).1,
    (getForce_spec.1 [4, 9] (fun i => (i : ℚ)) 7 1 (by decide)).2 0,
    getForce_spec.2.2 [4, 9] (fun i => (i : ℚ)) 7 1, ?_⟩
  rw [he (fun i => (i : ℚ)) 0, ← h2]
  norm_num

theorem buildIdMap_value_nonneg (gids : List ℤ) (first : ℕ) :
    ∀ e ∈ buildIdMap gids first, 0 ≤ e.2 := by
  induction gids generalizing first with
  | nil => intro e he; cases he
  | cons g rest ih =>
    intro e he
    cases List.mem_cons.mp he with
    | inl h => rw [h]; exact Int.natCast_nonneg first
    | inr h => exact ih (first + 1) e h

theorem buildIdMap_find?_eq_none (gids : List ℤ) (first : ℕ) (gid : ℤ) (h : gid ∉ gids) :
    (buildIdMap gids first).find? (fun e => e.1 = gid) = none := by
  induction gids generalizing first with
  | nil => rfl
  | cons g rest ih =>
    have hg : ¬g = gid := fun hh => h (hh ▸ List.mem_cons_self g rest)
    show List.find? _ ((g, (first : ℤ)) :: buildIdMap rest (first + 1)) = none
    rw [List.find?_cons_of_neg _ (by simpa using hg)]
    exact ih (first + 1) (fun hm => h (List.mem_cons_of_mem g hm))

/-- C9: the `localId == -1` guards after `operator[]` lookups in
`initialize` and `setCurrentTimeAndDisplacement` are unreachable —
`operator[]` default-inserts 0 for an absent key and every stored local id
is nonnegative, so the guarded lookup always returns `.ok`; a global id
that was never registered is silently treated as local index 0 instead of
aborting. -/
theorem peridigmLocalIdGuard_unreachable :
    (∀ (gids : List ℤ) (first : ℕ) (gid : ℤ),
      stdMapBracket (buildIdMap gids first) gid ≠ -1 ∧
      lookupPeridigmLocalId (buildIdMap gids first) gid
        = .ok (stdMapBracket (buildIdMap gids first) gid)) ∧
    (∀ (gids : List ℤ) (first : ℕ) (gid : ℤ), gid ∉ gids →
      stdMapBracket (buildIdMap gids first) gid = 0) := by
  have hval : ∀ (gids : List ℤ) (first : ℕ) (gid : ℤ),
      0 ≤ stdMapBracket (buildIdMap gids first) gid := by
    intro gids first gid
    unfold stdMapBracket
    cases hf : (buildIdMap gids first).find? (fun e => e.1 = gid) with
    | none => exact le_refl 0
    | some e => exact buildIdMap_value_nonneg gids first e (List.mem_of_find?_eq_some hf)
  constructor
  · intro gids first gid
    have hne : stdMapBracket (buildIdMap gids first) gid ≠ -1 := by
      have := hval gids first gid
      omega
    exact ⟨hne, by unfold lookupPeridigmLocalId; rw [if_neg hne]⟩
  · intro gids first gid h
    unfold stdMapBracket
    rw [buildIdMap_find?_eq_none gids first gid h]

theorem peridigmLocalIdGuard_unreachable_witness :
    stdMapBracket (buildIdMap [7] 0) 9 ≠ -1 ∧
    lookupPeridigmLocalId (buildIdMap [7] 0) 9
      = .ok (stdMapBracket (buildIdMap [7] 0) 9) ∧
    stdMapBracket (buildIdMap [7] 0) 9 = 0 :=
  ⟨(peridigmLocalIdGuard_unreachable.1 [7] 0 9).1,
   (peridigmLocalIdGuard_unreachable.1 [7] 0 9).2,
   peridigmLocalIdGuard_unreachable.2 [7] 0 9 (by decide)⟩

/-- C3 (counterexample): with a zero Jacobian determinant at the only
quadrature point (cubature weight 1), `initialize` raises no
DegenerateElement error and stores the non-positive volume 0 into
`cellVolume`. -/
theorem degenerateElement_not_detected :
    partialStressCellVolumes [0] [1] = .ok [0] ∧
    partialStressCellVolumes [0] [1] ≠ .error .degenerateElement ∧
    ¬ ((0 : ℚ) < 0) := by
  refine ⟨?_, ?_, by norm_num⟩
  · show Except.ok (computeCellMeasure [0] [1]) = Except.ok [0]
    norm_num [computeCellMeasure]
  · show Except.ok (computeCellMeasure [0] [1])
        ≠ (Except.error PeridigmError.degenerateElement : Except PeridigmError (List ℚ))
    simp

/-- C3 (amended): `initialize` performs no Jacobian-determinant check; each
weighted measure `|det|·weight` is stored into `cellVolume` unconditionally
and no error is ever raised on this path, so a stored volume is nonnegative
whenever its cubature weight is, and it is zero — not strictly positive —
exactly when the determinant or the weight is zero. -/
theorem partialStressCellVolumes_spec (dets weights : List ℚ) :
    partialStressCellVolumes dets weights = .ok (computeCellMeasure dets weights) ∧
    (computeCellMeasure dets weights).length = min dets.length weights.length ∧
    ∀ (i : ℕ) (h1 : i < dets.length) (h2 : i < weights.length),
      (computeCellMeasure dets weights).getD i 0 = |dets[i]| * weights[i] ∧
      (0 ≤ weights[i] → 0 ≤ (computeCellMeasure dets weights).getD i 0) ∧
      ((computeCellMeasure dets weights).getD i 0 = 0 ↔ dets[i] = 0 ∨ weights[i] = 0) := by
  refine ⟨rfl, by simp [computeCellMeasure], fun i h1 h2 => ?_⟩
  have hlen : i < (computeCellMeasure dets weights).length := by
    simp only [computeCellMeasure, List.length_zipWith]
    omega
  have hgd : (computeCellMeasure dets weights).getD i 0 = |dets[i]| * weights[i] := by
    rw [List.getD_eq_getElem _ _ hlen]
    simp only [computeCellMeasure]
    rw [List.getElem_zipWith]
  refine ⟨hgd, fun hw => hgd ▸ mul_nonneg (abs_nonneg _) hw, ?_⟩
  rw [hgd, mul_eq_zero, abs_eq_zero]

theorem partialStressCellVolumes_spec_witness :
    (computeCellMeasure [2] [3]).getD 0 0 = |([2] : List ℚ)[0]| * ([3] : List ℚ)[0] ∧
    (0 ≤ ([3] : List ℚ)[0] → 0 ≤ (computeCellMeasure [2] [3]).getD 0 0) :=
  ⟨((partialStressCellVolumes_spec [2] [3]).2.2 0 (by norm_num) (by norm_num)).1,
   ((partialStressCellVolumes_spec [2] [3]).2.2 0 (by norm_num) (by norm_num)).2.1⟩

/-- C7: every requested name goes through the closed hard-coded catalog —
scalar-per-element names yield length 1 element fields, vector-per-node
names length 3 node fields, tensor-per-element names length 9 element
fields, each with albanyName = "Peridigm_" + name; any other name aborts
with a fatal ConfigurationError; an already-registered field is not added a
second time; "Velocity" yields {albanyName = "Peridigm_Velocity", relation
= node, length = 3} and "Bogus" aborts. -/
theorem setOutputFields_spec :
    (∀ name ∈ scalarElementVariableNames, buildOutputField name
      = .ok { albanyName := "Peridigm_" ++ name, peridigmName := name,
              relation := "element", initType := "scalar", length := 1 }) ∧
    (∀ name ∈ vectorNodeVariableNames, buildOutputField name
      = .ok { albanyName := "Peridigm_" ++ name, peridigmName := name,
              relation := "node", initType := "scalar", length := 3 }) ∧
    (∀ name ∈ tensorElementVariableNames, buildOutputField name
      = .ok { albanyName := "Peridigm_" ++ name, peridigmName := name,
              relation := "element", initType := "scalar", length := 9 }) ∧
    (∀ name : String, name ∉ scalarElementVariableNames →
      name ∉ vectorNodeVariableNames → name ∉ tensorElementVariableNames →
      buildOutputField name = .error .configurationError) ∧
    (∀ (fields : List OutputField) (f : OutputField), f ∈ fields →
      addOutputField fields f = fields) ∧
    buildOutputField "Velocity"
      = .ok { albanyName := "Peridigm_Velocity", peridigmName := "Velocity",
              relation := "node", initType := "scalar", length := 3 } ∧
    buildOutputField "Bogus" = .error .configurationError ∧
    setOutputFields ["Velocity", "Velocity"] []
      = .ok [{ albanyName := "Peridigm_Velocity", peridigmName := "Velocity",
               relation := "node", initType := "scalar", length := 3 }] := by
  refine ⟨fun name h => ?_, fun name h => ?_, fun name h => ?_,
    fun name h1 h2 h3 => ?_, fun fields f h => ?_, rfl, rfl, rfl⟩
  · fin_cases h <;> rfl
  · fin_cases h <;> rfl
  · fin_cases h <;> rfl
  · unfold buildOutputField
    rw [if_neg h1, if_neg h2, if_neg h3]
  · unfold addOutputField
    rw [if_pos h]

theorem setOutputFields_spec_witness :
    buildOutputField "Volume"
      = .ok { albanyName := "Peridigm_" ++ "Volume", peridigmName := "Volume",
              relation := "element", initType := "scalar", length := 1 } ∧
    buildOutputField "Cauchy_Stress"
      = .ok { albanyName := "Peridigm_" ++ "Cauchy_Stress", peridigmName := "Cauchy_Stress",
              relation := "element", initType := "scalar", length := 9 } ∧
    buildOutputField "Nonsense" = .error .configurationError ∧
    addOutputField [{ albanyName := "Peridigm_Velocity", peridigmName := "Velocity",
                      relation := "node", initType := "scalar", length := 3 }]
        { albanyName := "Peridigm_Velocity", peridigmName := "Velocity",
          relation := "node", initType := "scalar", length := 3 }
      = [{ albanyName := "Peridigm_Velocity", peridigmName := "Velocity",
           relation := "node", initType := "scalar", length := 3 }] :=
  ⟨setOutputFields_spec.1 "Volume" (by decide),
   setOutputFields_spec.2.2.1 "Cauchy_Stress" (by decide),
   setOutputFields_spec.2.2.2.1 "Nonsense" (by decide) (by decide) (by decide),
   setOutputFields_spec.2.2.2.2.1 _ _ (List.mem_singleton.mpr rfl)⟩

/-- C10: when no element block is classified Peridynamics and none is
classified Peridynamic Partial Stress, `initialize` sets `hasPeridynamics`
to false; every subsequent `setCurrentTimeAndDisplacement`, `updateState`
and `evaluateInternalForce` then leaves the state untouched, and `getForce`
returns 0.0 for every input, exactly as when the sublist is absent. -/
theorem noPeridynamicBlocks_noop :
    (∀ blocks : List (String × String),
      (∀ b ∈ blocks, b.2 ≠ "Peridynamics" ∧ b.2 ≠ "Peridynamic Partial Stress") →
      classifyHasPeridynamics blocks = false) ∧
    (∀ (s : ManagerState) (time : ℚ) (meshDisp : ℤ → Vec3),
      s.hasPeridynamics = false → setCurrentTimeAndDisplacement time meshDisp s = s) ∧
    (∀ s : ManagerState, s.hasPeridynamics = false → updateState s = s) ∧
    (∀ (s : ManagerState) (solverStep : ManagerState → ManagerState),
      s.hasPeridynamics = false → evaluateInternalForce solverStep s = s) ∧
    (∀ (forceIds : List ℤ) (force : ℕ → ℚ) (gid : ℤ) (dof : ℕ),
      getForce false forceIds force gid dof = .ok 0) := by
  refine ⟨fun blocks h => ?_, fun s time meshDisp h => ?_, fun s h => ?_,
    fun s solverStep h => ?_, fun forceIds force gid dof => rfl⟩
  · have h1 : blocks.filter (fun b => b.2 == "Peridynamics") = [] :=
      List.filter_eq_nil_iff.mpr fun b hb => by simp [(h b hb).1]
    have h2 : blocks.filter (fun b => b.2 == "Peridynamic Partial Stress") = [] :=
      List.filter_eq_nil_iff.mpr fun b hb => by simp [(h b hb).2]
    simp [classifyHasPeridynamics, h1, h2]
  · simp [setCurrentTimeAndDisplacement, h]
  · simp [updateState, h]
  · simp [evaluateInternalForce, h]

theorem noPeridynamicBlocks_noop_witness :
    classifyHasPeridynamics [("block_1", "Elastic"), ("block_2", "J2 Plasticity")] = false ∧
    setCurrentTimeAndDisplacement 1 (fun _ => ⟨1/10, 0, 0⟩) noPeridynamicsState
      = noPeridynamicsState ∧
    updateState noPeridynamicsState = noPeridynamicsState ∧
    evaluateInternalForce (fun s => { s with currentTime := 99 }) noPeridynamicsState
      = noPeridynamicsState ∧
    getForce false [4] (fun i => (i : ℚ)) 4 0 = .ok 0 :=
  ⟨noPeridynamicBlocks_noop.1 [("block_1", "Elastic"), ("block_2", "J2 Plasticity")]
      (by intro b hb; fin_cases hb <;> exact ⟨by decide, by decide⟩),
   noPeridynamicBlocks_noop.2.1 noPeridynamicsState 1 (fun _ => ⟨1/10, 0, 0⟩) rfl,
   noPeridynamicBlocks_noop.2.2.1 noPeridynamicsState rfl,
   noPeridynamicBlocks_noop.2.2.2.1 noPeridynamicsState
     (fun s => { s with currentTime := 99 }) rfl,
   noPeridynamicBlocks_noop.2.2.2.2 [4] (fun i => (i : ℚ)) 4 0⟩

end PeridigmManager
